import Mathlib

/-!
Shallow embedding of `bind_manager` (src/src/main.rs), a CLI tool that
maintains a BIND blacklist as two flat files: a zone-declarations file
(`/etc/bind/blacklisted.zones`, line-oriented text) and a reason log
(`/etc/bind/reason_log.json`, a JSON array of `{domain, reason}` records),
plus an external `rndc reload` invocation.

Modelling conventions:
* The zone file is modelled as its raw character content (`String`), or
  `none` when the file is missing / cannot be opened (both `OpenOptions`
  and `File::open` fail in that case and the `?` operator propagates the
  error).  Rust's `BufRead::lines` / `str::contains` / `join("\n")` are
  re-implemented faithfully at the character-list level below.
* The reason log file is modelled as `ReasonFile`: the external crate
  `serde_json` is not code of this repository, so serialization is kept
  abstract — a file is either absent, present-but-unparsable, or present
  and parsing to a list of entries.  `serde_json`'s round-trip guarantee
  (deserializing its own output yields the original value) is reflected
  by pairing `save_reason_log` / `load_reason_log` through the
  `ReasonFile.entries` constructor.
* The external process `rndc reload` is modelled by a `SpawnOutcome`
  parameter: `Command::output()` either fails to start (an `io::Error`,
  propagated by `?`) or yields an exit status.
* Each operation returns a `RunResult`: the final state of both files,
  the list of lines printed to stdout, and whether an `io::Error`
  propagated out of the function (`err = true` makes the process exit
  non-zero).  State mutations performed before a failure point are kept,
  as they are on disk.
-/

/-- Rust `char::is_whitespace` (the Unicode `White_Space` property),
used by `str::split_whitespace` in `parse_domain_from_line`. -/
def isUnicodeWhitespace (c : Char) : Bool :=
  c == ' ' || c == '\t' || c == '\n' || c == '\x0b' || c == '\x0c' || c == '\r' ||
  c == '\u0085' || c == '\u00a0' || c == '\u1680' ||
  ('\u2000' ≤ c && c ≤ '\u200a') ||
  c == '\u2028' || c == '\u2029' || c == '\u202f' || c == '\u205f' || c == '\u3000'

/-- Split a character list at every newline; like Rust `str::split('\n')`
this always yields at least one (possibly empty) piece. -/
def splitNl : List Char → List (List Char)
  | [] => [[]]
  | c :: cs =>
    if c = '\n' then [] :: splitNl cs
    else
      match splitNl cs with
      | [] => [[c]]
      | p :: ps => (c :: p) :: ps

/-- Drop a single trailing carriage return.  Rust `BufRead::lines`
does this to a line only after it has popped that line's terminating
`'\n'` (the CRLF case); a final line with no newline terminator keeps
its `'\r'`. -/
def stripCr (l : List Char) : List Char :=
  if l.getLast? = some '\r' then l.dropLast else l

/-- Rust `BufRead::lines` collected into a list.  Splitting the content
on `'\n'` yields the newline-terminated pieces followed by one final
unterminated piece.  Each terminated piece has its `'\n'` popped
(already absent after the split) and then one trailing `'\r'` popped;
the final piece is dropped when empty (end of file reached) and kept
verbatim — carriage return included — when not. -/
def rust_lines (s : String) : List String :=
  let ps := splitNl s.data
  let terminated := ps.dropLast.map (fun l => String.mk (stripCr l))
  match ps.getLast? with
  | some [] => terminated
  | some lastp => terminated ++ [String.mk lastp]
  | none => terminated

/-- Rust `Vec::join("\n")`, used by `remove_domain` when rewriting the
zones file. -/
def joinNl (ls : List String) : String :=
  String.mk (((ls.map String.data).intersperse ['\n']).flatten)

/-- What `rust_lines` yields after `joinNl ls` is written back: every
line but the last is newline-terminated in the rewritten file, so
re-reading pops one trailing `'\r'` from it; the final line is left
unterminated by the join, so it is dropped when empty and otherwise
kept verbatim. -/
def reread_lines (ls : List String) : List String :=
  ls.dropLast.map (fun s => String.mk (stripCr s.data)) ++
    (if ls.getLast? = some "" then [] else ls.getLast?.toList)

/-- Substring test on character lists: `needle` occurs contiguously in
the haystack.  This is Rust `str::contains(&str)` (byte-level substring
search; on valid UTF-8 a match always falls on character boundaries, so
the character-level test coincides with it). -/
def containsSubChars (needle : List Char) : List Char → Bool
  | [] => needle.isEmpty
  | c :: rest => needle.isPrefixOf (c :: rest) || containsSubChars needle rest

/-- Rust `line.contains(domain)`. -/
def contains_sub (line domain : String) : Bool :=
  containsSubChars domain.data line.data

/-- Accumulator loop behind `split_whitespace`: `acc` holds the
characters of the token currently being read, in reverse. -/
def tokensAux : List Char → List Char → List (List Char)
  | [], acc => if acc.isEmpty then [] else [acc.reverse]
  | c :: cs, acc =>
    if isUnicodeWhitespace c then
      if acc.isEmpty then tokensAux cs [] else acc.reverse :: tokensAux cs []
    else tokensAux cs (c :: acc)

/-- Rust `str::split_whitespace` collected into a list: maximal runs of
non-whitespace characters, in order, with no empty tokens. -/
def split_whitespace (s : String) : List String :=
  (tokensAux s.data []).map String.mk

/-- Rust `str::starts_with('"')`. -/
def starts_with_quote (s : String) : Bool :=
  match s.data with
  | [] => false
  | c :: _ => c = '"'

/-- Rust `str::ends_with('"')`. -/
def ends_with_quote (s : String) : Bool :=
  match s.data.getLast? with
  | none => false
  | some c => c = '"'

/-- Rust `str::trim_matches('"')`: remove every leading and every
trailing `'"'` character. -/
def trim_matches_quote (s : String) : String :=
  String.mk (((s.data.dropWhile (fun c => c == '"')).reverse.dropWhile
    (fun c => c == '"')).reverse)

/-- One record of the reason log: `struct DomainEntry { domain, reason }`. -/
structure DomainEntry where
  domain : String
  reason : String
deriving DecidableEq

/-- State of the reason-log backing file (`/etc/bind/reason_log.json`).
The external `serde_json` crate is abstracted: the file is absent, or
present but not parsable as `Vec<DomainEntry>`, or present and parsing
to a given entry list (which is exactly what deserializing the
serialization of that list yields). -/
inductive ReasonFile where
  | absent
  | malformed
  | entries (es : List DomainEntry)
deriving DecidableEq

/-- Embedding of `load_reason_log`: if the file exists, parse it,
swallowing a parse error into an empty vector; if it does not exist,
return an empty vector. -/
def load_reason_log : ReasonFile → List DomainEntry
  | ReasonFile.absent => []
  | ReasonFile.malformed => []
  | ReasonFile.entries es => es

/-- Embedding of `save_reason_log`: truncate and rewrite the file with
the serialization of `entries` (which parses back to `entries`). -/
def save_reason_log (entries : List DomainEntry) : ReasonFile :=
  ReasonFile.entries entries

/-- Combined state of the two backing files.  `zonesFile = none` models
a missing/unopenable zone-declarations file (every `OpenOptions`/
`File::open` on it then returns an error). -/
structure SysState where
  reasonFile : ReasonFile
  zonesFile : Option String
deriving DecidableEq

/-- Outcome of invoking `rndc reload` via `Command::output()`: either
the process could not be started (`output()` returns `Err`, which
`reload_bind` propagates with `?`) or it ran and exited, with or
without status zero. -/
inductive SpawnOutcome where
  | spawnError
  | exited (statusZero : Bool)
deriving DecidableEq

/-- Result of running one operation: final file state, lines printed to
stdout, and whether an `io::Error` propagated out (making `main` return
`Err` and the process exit non-zero). -/
structure RunResult where
  state : SysState
  output : List String
  err : Bool
deriving DecidableEq

/-- Embedding of `reload_bind`, parameterized by the outcome of the
external process: returns the printed lines and whether an error
propagated.  Note the source applies `?` to `Command::output()`, so a
spawn failure is raised, not converted into a printed message. -/
def reload_bind : SpawnOutcome → List String × Bool
  | SpawnOutcome.spawnError => ([], true)
  | SpawnOutcome.exited true => (["BIND reloaded successfully."], false)
  | SpawnOutcome.exited false => (["Failed to reload BIND."], false)

/-- In-place update performed by `entries.iter_mut().find(...)` in
`add_domain`: the first entry whose domain matches gets its reason
overwritten; everything else is untouched. -/
def updateReason : List DomainEntry → String → String → List DomainEntry
  | [], _, _ => []
  | e :: rest, domain, reason =>
    if e.domain == domain then { e with reason := reason } :: rest
    else e :: updateReason rest domain reason

/-- The fixed declaration block text appended by `add_domain` for a
domain (the Rust `format!` template, including its two trailing
newlines). -/
def zoneDeclaration (domain : String) : String :=
  "zone \"" ++ domain ++
    "\" \x7btype master; file \"/etc/bind/zones/master/blockeddomains.db\";\x7d;\n\n"

/-- Embedding of `add_domain`. -/
def add_domain (domain reason : String) (o : SpawnOutcome) (st : SysState) :
    RunResult :=
  let entries := load_reason_log st.reasonFile
  if entries.any (fun e => e.domain == domain) then
    let entries := updateReason entries domain reason
    let msg := "Record already exists, updated reason for domain " ++ domain ++ "."
    let st := { st with reasonFile := save_reason_log entries }
    let r := reload_bind o
    { state := st, output := msg :: r.1, err := r.2 }
  else
    let entries := entries ++ [{ domain := domain, reason := reason }]
    match st.zonesFile with
    | none => { state := st, output := [], err := true }
    | some content =>
      let content := content ++ zoneDeclaration domain
      let msg := "Domain " ++ domain ++ " added to blacklist."
      let st : SysState :=
        { reasonFile := save_reason_log entries, zonesFile := some content }
      let r := reload_bind o
      { state := st, output := msg :: r.1, err := r.2 }

/-- The zone-file rewrite inside `remove_domain` (the spec's
`removeDeclaration`): keep exactly the lines not containing `domain` as
a substring; rewrite the file (joining with `"\n"`) only when some line
was dropped, and report whether one was. -/
def removeDeclaration (domain content : String) : String × Bool :=
  let all_lines := rust_lines content
  let filtered_lines := all_lines.filter (fun l => !(contains_sub l domain))
  if filtered_lines.length < all_lines.length then
    (joinNl filtered_lines, true)
  else
    (content, false)

/-- Embedding of `remove_domain`. -/
def remove_domain (domain : String) (o : SpawnOutcome) (st : SysState) :
    RunResult :=
  let entries := load_reason_log st.reasonFile
  let index := entries.findIdx? (fun e => e.domain == domain)
  let st :=
    match index with
    | some idx => { st with reasonFile := save_reason_log (entries.eraseIdx idx) }
    | none => st
  match st.zonesFile with
  | none => { state := st, output := [], err := true }
  | some content =>
    let rd := removeDeclaration domain content
    if rd.2 then
      let st := { st with zonesFile := some rd.1 }
      let r := reload_bind o
      { state := st,
        output := ("Domain " ++ domain ++ " removed from blacklist.") :: r.1,
        err := r.2 }
    else if index.isNone then
      let r := reload_bind o
      { state := st, output := "Domain not found." :: r.1, err := r.2 }
    else
      let r := reload_bind o
      { state := st, output := r.1, err := r.2 }

/-- Embedding of `parse_domain_from_line`. -/
def parse_domain_from_line (line : String) : Option String :=
  let parts := split_whitespace line
  match parts.get? 1 with
  | some part =>
    if starts_with_quote part && ends_with_quote part then
      some (trim_matches_quote part)
    else none
  | none => none

/-- Domain-extraction phase of `list_domains`: the loop that pushes
`parse_domain_from_line line` for each line of the zones file, in file
order (sorting happens afterwards, for display only). -/
def listDomains (content : String) : List String :=
  (rust_lines content).filterMap parse_domain_from_line

/-! General lemmas about the embedded string helpers. -/

theorem string_mk_data (s : String) : String.mk s.data = s := rfl

theorem string_data_eq_nil (s : String) (h : s.data = []) : s = "" := by
  cases s
  simp_all

lemma starts_with_quote_iff (t : String) :
    starts_with_quote t = true ↔ t.data.head? = some '"' := by
  unfold starts_with_quote
  cases t.data with
  | nil => simp
  | cons c cs => simp [List.head?]

lemma ends_with_quote_iff (t : String) :
    ends_with_quote t = true ↔ t.data.getLast? = some '"' := by
  unfold ends_with_quote
  cases h : t.data.getLast? with
  | none => simp
  | some c => simp

/-- C7: the reason store's load returns the stored entry sequence; a
missing backing file yields the empty sequence rather than an error, and
a present-but-unparsable file also yields the empty sequence rather than
surfacing an error. -/
theorem C7_load_reason_log_total :
    load_reason_log ReasonFile.absent = [] ∧
    load_reason_log ReasonFile.malformed = [] ∧
    ∀ es : List DomainEntry, load_reason_log (ReasonFile.entries es) = es :=
  ⟨rfl, rfl, fun _ => rfl⟩

/-- C9: saving any entry sequence and then loading the reason log yields
the same sequence, order and content preserved. -/
theorem C9_save_load_roundtrip :
    ∀ es : List DomainEntry, load_reason_log (save_reason_log es) = es :=
  fun _ => rfl

/-- C3 counterexample: the claim says the reload operation never raises,
with Failure also covering a process that could not be started; but
`reload_bind` applies `?` to `Command::output()`, so when the process
cannot be started the io error propagates to the caller (`err = true`,
with no Success/Failure message printed). -/
theorem C3_counterexample :
    (reload_bind SpawnOutcome.spawnError).2 = true ∧
    (reload_bind SpawnOutcome.spawnError).1 = [] :=
  ⟨rfl, rfl⟩

/-- C3 (amended): for every outcome in which the external reload process
starts and exits, `reload_bind` resolves without raising, reporting
success exactly when the exit status is zero; but when the process
cannot be started, the error propagates to the caller instead of
resolving to Failure. -/
theorem C3_reload_bind_amended :
    (∀ b : Bool, (reload_bind (SpawnOutcome.exited b)).2 = false ∧
      (reload_bind (SpawnOutcome.exited b)).1 =
        [if b then "BIND reloaded successfully." else "Failed to reload BIND."]) ∧
    (reload_bind SpawnOutcome.spawnError).2 = true := by
  refine ⟨fun b => ?_, rfl⟩
  cases b <;> exact ⟨rfl, rfl⟩

/-- C10: the extracted domain need not be the text between one pair of
quotes: a line whose second whitespace-delimited token is the single
character `"` yields the empty string as a domain, and a token carrying
repeated quotes such as `""x.com""` loses all leading and trailing
quote characters. -/
theorem C10_parse_domain_quirks :
    parse_domain_from_line "zone \" more" = some "" ∧
    parse_domain_from_line "zone \"\"x.com\"\" rest" = some "x.com" := by
  refine ⟨?_, ?_⟩ <;> rfl

/-- C4: for a domain not present in the reason log, when the zone
declarations file cannot be opened for append, `add_domain` fails with
an error before the reason log is saved, leaving the persisted reason
log unchanged (and printing nothing). -/
theorem C4_add_zone_open_failure (d r : String) (o : SpawnOutcome) (st : SysState)
    (hnew : (load_reason_log st.reasonFile).any (fun e => e.domain == d) = false)
    (hz : st.zonesFile = none) :
    add_domain d r o st = { state := st, output := [], err := true } := by
  simp [add_domain, hnew, hz]

/-- Witness for C4 at a concrete input: empty reason log, missing zones
file. -/
theorem C4_witness :
    ((load_reason_log (SysState.mk (ReasonFile.entries []) none).reasonFile).any
        (fun e => e.domain == "bad.example.com") = false) ∧
    (SysState.mk (ReasonFile.entries []) none).zonesFile = none ∧
    add_domain "bad.example.com" "spam" (SpawnOutcome.exited true)
        (SysState.mk (ReasonFile.entries []) none) =
      { state := SysState.mk (ReasonFile.entries []) none, output := [], err := true } :=
  ⟨by decide, rfl,
    C4_add_zone_open_failure "bad.example.com" "spam" (SpawnOutcome.exited true)
      (SysState.mk (ReasonFile.entries []) none) (by decide) rfl⟩

lemma updateReason_decomp (d r : String) (es : List DomainEntry)
    (h : es.any (fun e => e.domain == d) = true) :
    ∃ pre e post, es = pre ++ e :: post ∧ (∀ x ∈ pre, x.domain ≠ d) ∧
      e.domain = d ∧
      updateReason es d r = pre ++ { domain := d, reason := r } :: post := by
  induction es with
  | nil => simp at h
  | cons e rest ih =>
    by_cases he : e.domain = d
    · refine ⟨[], e, rest, rfl, by simp, he, ?_⟩
      cases e
      simp_all [updateReason]
    · have h' : rest.any (fun x => x.domain == d) = true := by
        simp only [List.any_cons] at h
        simpa [he] using h
      obtain ⟨pre, e', post, h1, h2, h3, h4⟩ := ih h'
      refine ⟨e :: pre, e', post, by simp [h1], ?_, h3, ?_⟩
      · intro x hx
        rcases List.mem_cons.mp hx with hx | hx
        · subst hx; exact he
        · exact h2 x hx
      · simp [updateReason, he, h4]

/-- C1 counterexample: the claim says an Add for an existing domain does
not trigger a resolver reload, but `add_domain` calls `reload_bind`
unconditionally: with the domain already present, a reload spawn
failure makes the run error, and a successful reload's message appears
in the output — neither could happen were the reload skipped. -/
theorem C1_counterexample :
    (add_domain "a.com" "r2" SpawnOutcome.spawnError
        (SysState.mk (ReasonFile.entries [⟨"a.com", "r1"⟩]) (some ""))).err = true ∧
    ((add_domain "a.com" "r2" (SpawnOutcome.exited true)
        (SysState.mk (ReasonFile.entries [⟨"a.com", "r1"⟩]) (some ""))).output).contains
      "BIND reloaded successfully." = true := by
  refine ⟨?_, ?_⟩ <;> rfl

/-- C1 (amended): for every domain already present in the reason log,
Add updates the stored reason of the first matching entry in place,
appends nothing to the zone declarations file, reports that the record
already exists and the reason was updated — and then still triggers a
resolver reload (the reload is not skipped: its message and error
behaviour are those of `reload_bind`). -/
theorem C1_add_existing_amended (d r : String) (o : SpawnOutcome) (st : SysState)
    (h : (load_reason_log st.reasonFile).any (fun e => e.domain == d) = true) :
    (add_domain d r o st).state.zonesFile = st.zonesFile ∧
    (∃ pre e post, load_reason_log st.reasonFile = pre ++ e :: post ∧
      (∀ x ∈ pre, x.domain ≠ d) ∧ e.domain = d ∧
      (add_domain d r o st).state.reasonFile =
        ReasonFile.entries (pre ++ { domain := d, reason := r } :: post)) ∧
    (add_domain d r o st).output =
      ("Record already exists, updated reason for domain " ++ d ++ ".") ::
        (reload_bind o).1 ∧
    (add_domain d r o st).err = (reload_bind o).2 := by
  obtain ⟨pre, e, post, h1, h2, h3, h4⟩ := updateReason_decomp d r _ h
  refine ⟨?_, ⟨pre, e, post, h1, h2, h3, ?_⟩, ?_, ?_⟩ <;>
    simp [add_domain, h, h4, save_reason_log]

/-- Witness for C1 (amended) at a concrete input: one-entry log holding
the domain being re-added. -/
theorem C1_witness :
    ((load_reason_log (SysState.mk (ReasonFile.entries [⟨"x.com", "abuse"⟩])
        (some "")).reasonFile).any (fun e => e.domain == "x.com") = true) ∧
    ((add_domain "x.com" "fraud" (SpawnOutcome.exited true)
        (SysState.mk (ReasonFile.entries [⟨"x.com", "abuse"⟩]) (some ""))).state.zonesFile =
      (SysState.mk (ReasonFile.entries [⟨"x.com", "abuse"⟩]) (some "")).zonesFile ∧
    (∃ pre e post,
      load_reason_log (SysState.mk (ReasonFile.entries [⟨"x.com", "abuse"⟩])
          (some "")).reasonFile = pre ++ e :: post ∧
      (∀ x ∈ pre, x.domain ≠ "x.com") ∧ e.domain = "x.com" ∧
      (add_domain "x.com" "fraud" (SpawnOutcome.exited true)
          (SysState.mk (ReasonFile.entries [⟨"x.com", "abuse"⟩]) (some ""))).state.reasonFile =
        ReasonFile.entries (pre ++ { domain := "x.com", reason := "fraud" } :: post)) ∧
    (add_domain "x.com" "fraud" (SpawnOutcome.exited true)
        (SysState.mk (ReasonFile.entries [⟨"x.com", "abuse"⟩]) (some ""))).output =
      ("Record already exists, updated reason for domain " ++ "x.com" ++ ".") ::
        (reload_bind (SpawnOutcome.exited true)).1 ∧
    (add_domain "x.com" "fraud" (SpawnOutcome.exited true)
        (SysState.mk (ReasonFile.entries [⟨"x.com", "abuse"⟩]) (some ""))).err =
      (reload_bind (SpawnOutcome.exited true)).2) :=
  ⟨by decide,
    C1_add_existing_amended "x.com" "fraud" (SpawnOutcome.exited true)
      (SysState.mk (ReasonFile.entries [⟨"x.com", "abuse"⟩]) (some "")) (by decide)⟩

/-- C2 counterexample: the claim requires only that the domain be absent
from the reason log and from the zone file's extracted domains; but
removal matches lines by substring, so Remove("x") on a file whose only
domain is "xy.com" rewrites the zone file and reports a removal instead
of "not found". -/
theorem C2_counterexample :
    listDomains "zone \"xy.com\" \x7btype master; file \"/etc/bind/zones/master/blockeddomains.db\";\x7d;\n\n" =
      ["xy.com"] ∧
    (remove_domain "x" (SpawnOutcome.exited true)
        (SysState.mk (ReasonFile.entries [])
          (some "zone \"xy.com\" \x7btype master; file \"/etc/bind/zones/master/blockeddomains.db\";\x7d;\n\n"))).output.head? =
      some "Domain x removed from blacklist." ∧
    (remove_domain "x" (SpawnOutcome.exited true)
        (SysState.mk (ReasonFile.entries [])
          (some "zone \"xy.com\" \x7btype master; file \"/etc/bind/zones/master/blockeddomains.db\";\x7d;\n\n"))).state.zonesFile =
      some "" := by
  refine ⟨?_, ?_, ?_⟩ <;> rfl

/-- C2 (amended): for every domain d absent from the reason log and not
occurring as a literal substring of any line of the zone declarations
file, Remove(d) reports "not found" and leaves both stores unchanged
(the reason log is not rewritten and the zone file is not touched). -/
theorem C2_remove_not_found_amended (d : String) (o : SpawnOutcome) (st : SysState)
    (content : String)
    (h1 : (load_reason_log st.reasonFile).all (fun e => !(e.domain == d)) = true)
    (hz : st.zonesFile = some content)
    (h2 : (rust_lines content).all (fun l => !(contains_sub l d)) = true) :
    (remove_domain d o st).state = st ∧
    (remove_domain d o st).output = "Domain not found." :: (reload_bind o).1 ∧
    (remove_domain d o st).err = (reload_bind o).2 := by
  have hidx : (load_reason_log st.reasonFile).findIdx? (fun e => e.domain == d) = none := by
    refine List.findIdx?_eq_none_iff.mpr ?_
    intro e he
    simpa using List.all_eq_true.mp h1 e he
  have hfil : (rust_lines content).filter (fun l => !(contains_sub l d)) =
      rust_lines content :=
    List.filter_eq_self.mpr (List.all_eq_true.mp h2)
  refine ⟨?_, ?_, ?_⟩ <;>
    simp [remove_domain, hidx, hz, removeDeclaration, hfil]

/-- Witness for C2 (amended) at a concrete input: empty log, one
unrelated declaration. -/
theorem C2_witness :
    ((load_reason_log (SysState.mk (ReasonFile.entries [])
        (some "zone \"xy.com\" \x7bz\x7d;\n\n")).reasonFile).all
      (fun e => !(e.domain == "evil.test")) = true) ∧
    ((SysState.mk (ReasonFile.entries []) (some "zone \"xy.com\" \x7bz\x7d;\n\n")).zonesFile =
      some "zone \"xy.com\" \x7bz\x7d;\n\n") ∧
    ((rust_lines "zone \"xy.com\" \x7bz\x7d;\n\n").all
      (fun l => !(contains_sub l "evil.test")) = true) ∧
    ((remove_domain "evil.test" (SpawnOutcome.exited true)
        (SysState.mk (ReasonFile.entries []) (some "zone \"xy.com\" \x7bz\x7d;\n\n"))).state =
      SysState.mk (ReasonFile.entries []) (some "zone \"xy.com\" \x7bz\x7d;\n\n") ∧
    (remove_domain "evil.test" (SpawnOutcome.exited true)
        (SysState.mk (ReasonFile.entries []) (some "zone \"xy.com\" \x7bz\x7d;\n\n"))).output =
      "Domain not found." :: (reload_bind (SpawnOutcome.exited true)).1 ∧
    (remove_domain "evil.test" (SpawnOutcome.exited true)
        (SysState.mk (ReasonFile.entries []) (some "zone \"xy.com\" \x7bz\x7d;\n\n"))).err =
      (reload_bind (SpawnOutcome.exited true)).2) :=
  ⟨by decide, rfl, by decide,
    C2_remove_not_found_amended "evil.test" (SpawnOutcome.exited true)
      (SysState.mk (ReasonFile.entries []) (some "zone \"xy.com\" \x7bz\x7d;\n\n"))
      "zone \"xy.com\" \x7bz\x7d;\n\n" (by decide) rfl (by decide)⟩

/-- C6: `parse_domain_from_line` extracts a domain from a line exactly
when the second whitespace-delimited token exists and both starts and
ends with a double quote, in which case the yielded domain is the token
with all leading/trailing quote characters stripped; every other line
yields nothing (no error), and the extraction phase of `list_domains`
maps over the file's lines in order, keeping exactly the extracted
domains. -/
theorem C6_parse_domain_characterization :
    (∀ line d : String,
      parse_domain_from_line line = some d ↔
        ∃ t, (split_whitespace line).get? 1 = some t ∧
          t.data.head? = some '"' ∧ t.data.getLast? = some '"' ∧
          trim_matches_quote t = d) ∧
    (∀ content : String,
      listDomains content = (rust_lines content).filterMap parse_domain_from_line) := by
  refine ⟨fun line d => ?_, fun _ => rfl⟩
  simp only [parse_domain_from_line]
  cases h : (split_whitespace line).get? 1 with
  | none => simp [h]
  | some t =>
    cases h1 : starts_with_quote t with
    | false =>
      have hh1 : t.data.head? ≠ some '"' := fun hc => by
        rw [(starts_with_quote_iff t).mpr hc] at h1
        exact Bool.true_eq_false.mp h1
      simp [h1, hh1]
    | true =>
      have hh1 : t.data.head? = some '"' := (starts_with_quote_iff t).mp h1
      cases h2 : ends_with_quote t with
      | false =>
        have hh2 : t.data.getLast? ≠ some '"' := fun hc => by
          rw [(ends_with_quote_iff t).mpr hc] at h2
          exact Bool.true_eq_false.mp h2
        simp [h1, h2, hh2]
      | true =>
        have hh2 : t.data.getLast? = some '"' := (ends_with_quote_iff t).mp h2
        simp [h1, h2, hh1, hh2, eq_comm]

lemma splitNl_ne_nil (l : List Char) : splitNl l ≠ [] := by
  induction l with
  | nil => simp [splitNl]
  | cons c cs ih =>
    unfold splitNl
    by_cases hc : c = '\n'
    · simp [hc]
    · simp only [hc, if_false]
      cases h : splitNl cs with
      | nil => simp
      | cons p ps => simp

lemma splitNl_cons_newline (cs : List Char) :
    splitNl ('\n' :: cs) = [] :: splitNl cs := by
  simp [splitNl]

lemma splitNl_cons_other (c : Char) (cs : List Char) (hc : c ≠ '\n') :
    splitNl (c :: cs) =
      match splitNl cs with
      | [] => [[c]]
      | p :: ps => (c :: p) :: ps := by
  simp only [splitNl]
  rw [if_neg hc]

lemma splitNl_head_tail (cs : List Char) :
    ∃ q qs, splitNl cs = q :: qs := by
  cases h : splitNl cs with
  | nil => exact absurd h (splitNl_ne_nil cs)
  | cons q qs => exact ⟨q, qs, rfl⟩

lemma splitNl_append_newline (a b : List Char) :
    splitNl (a ++ '\n' :: b) = splitNl a ++ splitNl b := by
  induction a with
  | nil => simp [splitNl_cons_newline, splitNl]
  | cons c cs ih =>
    by_cases hc : c = '\n'
    · subst hc
      simp only [List.cons_append, splitNl_cons_newline, ih]
    · obtain ⟨q, qs, h⟩ := splitNl_head_tail cs
      simp only [List.cons_append]
      rw [splitNl_cons_other c _ hc, splitNl_cons_other c _ hc, ih, h]
      simp

lemma splitNl_no_newline (l : List Char) (h : ∀ c ∈ l, c ≠ '\n') :
    splitNl l = [l] := by
  induction l with
  | nil => rfl
  | cons c cs ih =>
    have hc : c ≠ '\n' := h c (by simp)
    rw [splitNl_cons_other c cs hc, ih (fun x hx => h x (by simp [hx]))]

lemma mem_splitNl_no_newline (l : List Char) (p : List Char) (hp : p ∈ splitNl l) :
    '\n' ∉ p := by
  induction l generalizing p with
  | nil =>
    simp [splitNl] at hp
    simp [hp]
  | cons c cs ih =>
    by_cases hc : c = '\n'
    · subst hc
      rw [splitNl_cons_newline] at hp
      rcases List.mem_cons.mp hp with hp | hp
      · simp [hp]
      · exact ih p hp
    · obtain ⟨q, qs, h⟩ := splitNl_head_tail cs
      rw [splitNl_cons_other c cs hc, h] at hp
      rcases List.mem_cons.mp hp with hp | hp
      · subst hp
        intro hmem
        rcases List.mem_cons.mp hmem with h1 | h1
        · exact hc h1.symm
        · exact ih q (by rw [h]; exact List.mem_cons_self q qs) h1
      · exact ih p (by rw [h]; exact List.mem_cons_of_mem q hp)

lemma string_eq_of_data (a b : String) (h : a.data = b.data) : a = b :=
  congrArg String.mk h

lemma rust_lines_empty : rust_lines "" = [] := rfl

lemma rust_lines_eq (s : String) :
    rust_lines s =
      (match (splitNl s.data).getLast? with
       | some [] => (splitNl s.data).dropLast.map (fun l => String.mk (stripCr l))
       | some lastp =>
          (splitNl s.data).dropLast.map (fun l => String.mk (stripCr l)) ++ [String.mk lastp]
       | none => (splitNl s.data).dropLast.map (fun l => String.mk (stripCr l))) := rfl

lemma rust_lines_eq_terminated (s : String)
    (h : (splitNl s.data).getLast? = some []) :
    rust_lines s = (splitNl s.data).dropLast.map (fun l => String.mk (stripCr l)) := by
  rw [rust_lines_eq, h]

lemma rust_lines_eq_unterminated (s : String) (p : List Char) (hne : p ≠ [])
    (h : (splitNl s.data).getLast? = some p) :
    rust_lines s =
      (splitNl s.data).dropLast.map (fun l => String.mk (stripCr l)) ++ [String.mk p] := by
  rw [rust_lines_eq, h]
  cases p with
  | nil => exact absurd rfl hne
  | cons c cs => rfl

lemma splitNl_getLast_ne_none (l : List Char) :
    (splitNl l).getLast? ≠ none := by
  intro h0
  have := List.getLast?_eq_getLast (splitNl l) (splitNl_ne_nil l)
  rw [h0] at this
  exact Option.noConfusion this

lemma rust_lines_append (s t : String)
    (h : s.data = [] ∨ s.data.getLast? = some '\n') :
    rust_lines (s ++ t) = rust_lines s ++ rust_lines t := by
  rcases h with h | h
  · have hs : s = "" := string_data_eq_nil s h
    subst hs
    have ht : "" ++ t = t := string_eq_of_data _ _ (by simp [String.data_append])
    rw [ht, rust_lines_empty, List.nil_append]
  · have hne : s.data ≠ [] := by
      intro h0
      rw [h0] at h
      simp at h
    have hlast : s.data.getLast hne = '\n' := by
      have := List.getLast?_eq_getLast s.data hne
      rw [h] at this
      exact (Option.some.injEq _ _).mp this.symm
    have hsplit : s.data.dropLast ++ ['\n'] = s.data := by
      conv_rhs => rw [← List.dropLast_append_getLast hne]
      rw [hlast]
    have hdata : (s ++ t).data = s.data.dropLast ++ '\n' :: t.data := by
      rw [String.data_append]
      conv_lhs => rw [← hsplit]
      rw [List.append_assoc]
      rfl
    have hsdata : splitNl s.data = splitNl s.data.dropLast ++ [[]] := by
      conv_lhs => rw [← hsplit]
      rw [show s.data.dropLast ++ ['\n'] = s.data.dropLast ++ '\n' :: [] from rfl,
        splitNl_append_newline]
      rfl
    have hBne : splitNl t.data ≠ [] := splitNl_ne_nil t.data
    have hstsplit : splitNl (s ++ t).data = splitNl s.data.dropLast ++ splitNl t.data := by
      rw [hdata, splitNl_append_newline]
    have hstlast : (splitNl (s ++ t).data).getLast? = (splitNl t.data).getLast? := by
      rw [hstsplit]
      exact List.getLast?_append_of_ne_nil _ hBne
    have hsA : rust_lines s = (splitNl s.data.dropLast).map (fun l => String.mk (stripCr l)) := by
      rw [rust_lines_eq_terminated s (by rw [hsdata]; exact List.getLast?_concat _),
        hsdata, List.dropLast_concat]
    by_cases hcond : (splitNl t.data).getLast? = some []
    · rw [rust_lines_eq_terminated (s ++ t) (by rw [hstlast]; exact hcond),
        rust_lines_eq_terminated t hcond, hsA, hstsplit,
        List.dropLast_append_of_ne_nil _ hBne, List.map_append]
    · obtain ⟨q', hq'⟩ : ∃ q', (splitNl t.data).getLast? = some q' := by
        cases hg : (splitNl t.data).getLast? with
        | none => exact absurd hg (splitNl_getLast_ne_none t.data)
        | some q' => exact ⟨q', rfl⟩
      have hq'ne : q' ≠ [] := by
        intro h0
        rw [h0] at hq'
        exact hcond hq'
      rw [rust_lines_eq_unterminated (s ++ t) q' hq'ne (by rw [hstlast]; exact hq'),
        rust_lines_eq_unterminated t q' hq'ne hq', hsA, hstsplit,
        List.dropLast_append_of_ne_nil _ hBne, List.map_append, List.append_assoc]

/-- The single declaration line of the appended block (the block minus
its two trailing newlines). -/
def zoneLineStr (domain : String) : String :=
  "zone \"" ++ domain ++
    "\" \x7btype master; file \"/etc/bind/zones/master/blockeddomains.db\";\x7d;"

lemma zoneDeclaration_eq (d : String) : zoneDeclaration d = zoneLineStr d ++ "\n\n" := by
  apply string_eq_of_data
  simp only [zoneDeclaration, zoneLineStr, String.data_append, List.append_assoc]
  congr 2

lemma tokensAux_append_nonws (w r acc : List Char)
    (hw : ∀ c ∈ w, isUnicodeWhitespace c = false) :
    tokensAux (w ++ r) acc = tokensAux r (w.reverse ++ acc) := by
  induction w generalizing acc with
  | nil => simp
  | cons c cs ih =>
    have hc : isUnicodeWhitespace c = false := hw c (by simp)
    simp only [List.cons_append]
    rw [show tokensAux (c :: (cs ++ r)) acc = tokensAux (cs ++ r) (c :: acc) from by
      simp [tokensAux, hc]]
    rw [ih (c :: acc) (fun x hx => hw x (by simp [hx]))]
    simp [List.append_assoc]

lemma tokensAux_ws_acc (c : Char) (r acc : List Char) (hc : isUnicodeWhitespace c = true)
    (ha : acc.isEmpty = false) :
    tokensAux (c :: r) acc = acc.reverse :: tokensAux r [] := by
  simp [tokensAux, hc, ha]

lemma zoneLineStr_data (d : String) :
    (zoneLineStr d).data =
      ['z', 'o', 'n', 'e'] ++ ' ' :: (('"' :: d.data ++ ['"']) ++ ' ' ::
        "\x7btype master; file \"/etc/bind/zones/master/blockeddomains.db\";\x7d;".data) := by
  have h1 : ("zone \"" : String).data = ['z', 'o', 'n', 'e', ' ', '"'] := rfl
  have h2 : ("\" \x7btype master; file \"/etc/bind/zones/master/blockeddomains.db\";\x7d;" : String).data =
      '"' :: ' ' ::
        "\x7btype master; file \"/etc/bind/zones/master/blockeddomains.db\";\x7d;".data := rfl
  unfold zoneLineStr
  rw [String.data_append, String.data_append, h1, h2]
  simp [List.append_assoc]

lemma split_whitespace_zoneLine (d : String)
    (hd : d.data.all (fun c => !(isUnicodeWhitespace c)) = true) :
    split_whitespace (zoneLineStr d) =
      "zone" :: String.mk ('"' :: d.data ++ ['"']) ::
        (tokensAux "\x7btype master; file \"/etc/bind/zones/master/blockeddomains.db\";\x7d;".data []).map
          String.mk := by
  have hw1 : ∀ c ∈ '"' :: d.data ++ ['"'], isUnicodeWhitespace c = false := by
    intro c hc
    rcases List.mem_cons.mp hc with hc | hc
    · subst hc; decide
    · rcases List.mem_append.mp hc with hc | hc
      · have := List.all_eq_true.mp hd c hc
        simpa using this
      · simp at hc
        subst hc; decide
  unfold split_whitespace
  rw [zoneLineStr_data d]
  rw [tokensAux_append_nonws ['z', 'o', 'n', 'e'] _ [] (by decide)]
  rw [tokensAux_ws_acc ' ' _ _ (by decide) (by decide)]
  rw [tokensAux_append_nonws ('"' :: d.data ++ ['"']) _ [] hw1]
  rw [tokensAux_ws_acc ' ' _ _ (by decide) (by
    simp [List.isEmpty_iff])]
  simp [List.reverse_reverse, List.append_nil]

lemma trim_matches_quote_wrap (d : String)
    (h1 : d.data.head? ≠ some '"') (h2 : d.data.getLast? ≠ some '"') :
    trim_matches_quote (String.mk ('"' :: d.data ++ ['"'])) = d := by
  cases hd : d.data with
  | nil =>
    have hnil : d = "" := string_data_eq_nil d hd
    subst hnil
    rfl
  | cons c cs =>
    rw [hd] at h1 h2
    have hc : (c == '"') = false := by
      simp only [List.head?] at h1
      simp only [beq_eq_false_iff_ne, ne_eq]
      intro h0
      exact h1 (by rw [h0])
    apply string_eq_of_data
    rw [hd]
    have hstep : (trim_matches_quote (String.mk ('"' :: c :: cs ++ ['"']))).data =
        ((('"' :: c :: (cs ++ ['"'])).dropWhile (fun x => x == '"')).reverse.dropWhile
          (fun x => x == '"')).reverse := rfl
    rw [hstep]
    have e1 : ('"' :: c :: (cs ++ ['"'])).dropWhile (fun x => x == '"') =
        (c :: (cs ++ ['"'])).dropWhile (fun x => x == '"') := rfl
    have e2 : (c :: (cs ++ ['"'])).dropWhile (fun x => x == '"') = c :: (cs ++ ['"']) := by
      simp [List.dropWhile_cons, hc]
    rw [e1, e2]
    have e3 : (c :: (cs ++ ['"'])).reverse = '"' :: (c :: cs).reverse := by
      simp
    rw [e3]
    have e4 : ('"' :: (c :: cs).reverse).dropWhile (fun x => x == '"') =
        (c :: cs).reverse.dropWhile (fun x => x == '"') := rfl
    rw [e4]
    have hlast : (c :: cs).reverse.head? ≠ some '"' := by
      rw [List.head?_reverse]
      exact h2
    have e5 : (c :: cs).reverse.dropWhile (fun x => x == '"') = (c :: cs).reverse := by
      cases hr : (c :: cs).reverse with
      | nil => rfl
      | cons y ys =>
        rw [hr] at hlast
        have hy : (y == '"') = false := by
          simp only [List.head?] at hlast
          simp only [beq_eq_false_iff_ne, ne_eq]
          intro h0
          exact hlast (by rw [h0])
        simp [List.dropWhile_cons, hy]
    rw [e5, List.reverse_reverse]

lemma parse_zoneLineStr (d : String)
    (hd : d.data.all (fun c => !(isUnicodeWhitespace c)) = true)
    (h1 : d.data.head? ≠ some '"') (h2 : d.data.getLast? ≠ some '"') :
    parse_domain_from_line (zoneLineStr d) = some d := by
  simp only [parse_domain_from_line]
  rw [split_whitespace_zoneLine d hd]
  have hget : ("zone" :: String.mk ('"' :: d.data ++ ['"']) ::
      (tokensAux "\x7btype master; file \"/etc/bind/zones/master/blockeddomains.db\";\x7d;".data []).map
        String.mk).get? 1 = some (String.mk ('"' :: d.data ++ ['"'])) := rfl
  rw [hget]
  have hst : starts_with_quote (String.mk ('"' :: d.data ++ ['"'])) = true := by
    simp [starts_with_quote]
  have hen : ends_with_quote (String.mk ('"' :: d.data ++ ['"'])) = true := by
    have hg : (String.mk ('"' :: d.data ++ ['"'])).data.getLast? = some '"' := by
      rw [show (String.mk ('"' :: d.data ++ ['"'])).data = ('"' :: d.data) ++ ['"'] from rfl]
      exact List.getLast?_concat _
    exact (ends_with_quote_iff _).mpr hg
  show (if (starts_with_quote (String.mk ('"' :: d.data ++ ['"'])) &&
      ends_with_quote (String.mk ('"' :: d.data ++ ['"']))) = true
    then some (trim_matches_quote (String.mk ('"' :: d.data ++ ['"']))) else none) = some d
  rw [hst, hen]
  exact congrArg some (trim_matches_quote_wrap d h1 h2)

lemma zoneLineStr_no_newline (d : String)
    (hd : d.data.all (fun c => !(isUnicodeWhitespace c)) = true) :
    ∀ c ∈ (zoneLineStr d).data, c ≠ '\n' := by
  have hT : ∀ x ∈ "\x7btype master; file \"/etc/bind/zones/master/blockeddomains.db\";\x7d;".data,
      x ≠ '\n' := by decide
  have hdnl : ∀ x ∈ d.data, x ≠ '\n' := by
    intro x hx h0
    have hws := List.all_eq_true.mp hd x hx
    rw [h0] at hws
    exact absurd hws (by decide)
  intro c hc
  rw [zoneLineStr_data d] at hc
  rcases List.mem_append.mp hc with h | h
  · simp at h
    rcases h with rfl | rfl | rfl | rfl <;> decide
  · rcases List.mem_cons.mp h with rfl | h
    · decide
    · rcases List.mem_append.mp h with h | h
      · rcases List.mem_append.mp h with h | h
        · rcases List.mem_cons.mp h with rfl | h
          · decide
          · exact hdnl c h
        · simp at h
          subst h
          decide
      · rcases List.mem_cons.mp h with rfl | h
        · decide
        · exact hT c h

lemma zoneLineStr_getLast (d : String) :
    (zoneLineStr d).data.getLast? = some ';' := by
  rw [zoneLineStr_data d]
  rw [List.getLast?_append_of_ne_nil _ (by simp)]
  rw [← List.singleton_append, List.getLast?_append_of_ne_nil _ (by simp)]
  rw [List.getLast?_append_of_ne_nil _ (by simp)]
  rw [← List.singleton_append, List.getLast?_append_of_ne_nil _ (by decide)]
  rfl

lemma rust_lines_zoneDeclaration (d : String)
    (hd : d.data.all (fun c => !(isUnicodeWhitespace c)) = true) :
    rust_lines (zoneDeclaration d) = [zoneLineStr d, ""] := by
  rw [zoneDeclaration_eq]
  have hdata : (zoneLineStr d ++ "\n\n").data = (zoneLineStr d).data ++ '\n' :: ['\n'] := by
    rw [String.data_append]
  have hsplit : splitNl (zoneLineStr d ++ "\n\n").data =
      (zoneLineStr d).data :: [] :: [[]] := by
    rw [hdata, splitNl_append_newline,
      splitNl_no_newline _ (zoneLineStr_no_newline d hd)]
    rfl
  have hstrip : stripCr (zoneLineStr d).data = (zoneLineStr d).data := by
    unfold stripCr
    rw [if_neg (by rw [zoneLineStr_getLast d]; decide)]
  rw [rust_lines_eq_terminated _ (by rw [hsplit]; rfl), hsplit]
  rw [show ((zoneLineStr d).data :: [] :: [[]] : List (List Char)).dropLast =
      [(zoneLineStr d).data, []] from rfl]
  simp only [List.map_cons, List.map_nil, hstrip, string_mk_data]
  rfl

lemma updateReason_append_nomatch (es : List DomainEntry) (d r1 r2 : String)
    (h : ∀ e ∈ es, (e.domain == d) = false) :
    updateReason (es ++ [{ domain := d, reason := r1 }]) d r2 =
      es ++ [{ domain := d, reason := r2 }] := by
  induction es with
  | nil => simp [updateReason]
  | cons e rest ih =>
    have he : (e.domain == d) = false := h e (by simp)
    simp only [List.cons_append, updateReason, he, Bool.false_eq_true, if_false]
    exact congrArg (List.cons e) (ih (fun x hx => h x (by simp [hx])))

lemma add_domain_existing_state (d r : String) (o : SpawnOutcome) (st : SysState)
    (h : (load_reason_log st.reasonFile).any (fun e => e.domain == d) = true) :
    (add_domain d r o st).state =
      SysState.mk (ReasonFile.entries (updateReason (load_reason_log st.reasonFile) d r))
        st.zonesFile := by
  simp [add_domain, h, save_reason_log]

lemma add_domain_new_state (d r : String) (o : SpawnOutcome) (st : SysState)
    (content : String)
    (h : (load_reason_log st.reasonFile).any (fun e => e.domain == d) = false)
    (hz : st.zonesFile = some content) :
    (add_domain d r o st).state =
      SysState.mk
        (ReasonFile.entries (load_reason_log st.reasonFile ++ [{ domain := d, reason := r }]))
        (some (content ++ zoneDeclaration d)) := by
  simp [add_domain, h, hz, save_reason_log]

/-- C8 counterexample: the claim quantifies over every domain, but a
domain containing whitespace (here "two words") produces a declaration
line whose second whitespace-delimited token is not a quoted domain, so
after Add(d,r1); Add(d,r2) the zone file contains no declaration line
parsing to d at all, not exactly one. -/
theorem C8_counterexample :
    ((load_reason_log (add_domain "two words" "r2" (SpawnOutcome.exited true)
        (add_domain "two words" "r1" (SpawnOutcome.exited true)
          (SysState.mk (ReasonFile.entries []) (some ""))).state).state.reasonFile).filter
      (fun e => e.domain == "two words")) =
        [{ domain := "two words", reason := "r2" }] ∧
    (add_domain "two words" "r2" (SpawnOutcome.exited true)
        (add_domain "two words" "r1" (SpawnOutcome.exited true)
          (SysState.mk (ReasonFile.entries []) (some ""))).state).state.zonesFile =
      some "zone \"two words\" \x7btype master; file \"/etc/bind/zones/master/blockeddomains.db\";\x7d;\n\n" ∧
    (rust_lines "zone \"two words\" \x7btype master; file \"/etc/bind/zones/master/blockeddomains.db\";\x7d;\n\n").countP
      (fun l => parse_domain_from_line l == some "two words") = 0 := by
  refine ⟨?_, ?_, ?_⟩ <;> rfl

/-- C8 (amended): for every domain d that contains no whitespace and
neither begins nor ends with a double-quote character, starting from a
state where d has no reason-log entry and the zone file exists, is
empty or newline-terminated, and contains no line parsing to d,
performing Add(d, r1) and then Add(d, r2) leaves the reason log with
exactly one entry for d, whose reason is r2, and leaves the zone
declarations file with exactly one declaration line for d. -/
theorem C8_add_add_amended (d r1 r2 : String) (o1 o2 : SpawnOutcome) (st : SysState)
    (content : String)
    (hdw : d.data.all (fun c => !(isUnicodeWhitespace c)) = true)
    (hq1 : d.data.head? ≠ some '"')
    (hq2 : d.data.getLast? ≠ some '"')
    (h0 : (load_reason_log st.reasonFile).all (fun e => !(e.domain == d)) = true)
    (hz : st.zonesFile = some content)
    (hnl : content.data = [] ∨ content.data.getLast? = some '\n')
    (hnd : (rust_lines content).countP
      (fun l => parse_domain_from_line l == some d) = 0) :
    ((load_reason_log (add_domain d r2 o2
        (add_domain d r1 o1 st).state).state.reasonFile).filter
      (fun e => e.domain == d)) = [{ domain := d, reason := r2 }] ∧
    ∃ zc, (add_domain d r2 o2 (add_domain d r1 o1 st).state).state.zonesFile = some zc ∧
      (rust_lines zc).countP (fun l => parse_domain_from_line l == some d) = 1 := by
  have hmem : ∀ e ∈ load_reason_log st.reasonFile, (e.domain == d) = false := by
    intro e he
    simpa using List.all_eq_true.mp h0 e he
  have hany : (load_reason_log st.reasonFile).any (fun e => e.domain == d) = false := by
    rw [List.any_eq_false]
    intro e he
    simp [hmem e he]
  rw [add_domain_new_state d r1 o1 st content hany hz]
  have hany2 : ((load_reason_log (SysState.mk
      (ReasonFile.entries (load_reason_log st.reasonFile ++ [{ domain := d, reason := r1 }]))
      (some (content ++ zoneDeclaration d))).reasonFile).any
        (fun e => e.domain == d)) = true := by
    simp [load_reason_log]
  rw [add_domain_existing_state d r2 o2 _ hany2]
  have hupd := updateReason_append_nomatch (load_reason_log st.reasonFile) d r1 r2 hmem
  constructor
  · show (load_reason_log (ReasonFile.entries (updateReason
      (load_reason_log (ReasonFile.entries (load_reason_log st.reasonFile ++
        [{ domain := d, reason := r1 }]))) d r2))).filter (fun e => e.domain == d) =
          [{ domain := d, reason := r2 }]
    rw [show load_reason_log (ReasonFile.entries (load_reason_log st.reasonFile ++
      [{ domain := d, reason := r1 }])) = load_reason_log st.reasonFile ++
        [{ domain := d, reason := r1 }] from rfl]
    rw [show load_reason_log (ReasonFile.entries (updateReason
      (load_reason_log st.reasonFile ++ [{ domain := d, reason := r1 }]) d r2)) =
        updateReason (load_reason_log st.reasonFile ++
          [{ domain := d, reason := r1 }]) d r2 from rfl]
    rw [hupd]
    rw [List.filter_append, List.filter_eq_nil_iff.mpr (by
      intro e he
      simp [hmem e he])]
    simp
  · refine ⟨content ++ zoneDeclaration d, rfl, ?_⟩
    rw [rust_lines_append content (zoneDeclaration d) hnl,
      rust_lines_zoneDeclaration d hdw, List.countP_append, hnd,
      List.countP_cons, List.countP_cons]
    rw [show parse_domain_from_line "" = none from rfl]
    rw [parse_zoneLineStr d hdw hq1 hq2]
    simp

/-- Witness for C8 (amended) at a concrete input: empty reason log and
empty zones file, domain "a.com". -/
theorem C8_witness :
    ("a.com".data.all (fun c => !(isUnicodeWhitespace c)) = true) ∧
    ("a.com".data.head? ≠ some '"') ∧
    ("a.com".data.getLast? ≠ some '"') ∧
    ((load_reason_log (SysState.mk (ReasonFile.entries []) (some "")).reasonFile).all
      (fun e => !(e.domain == "a.com")) = true) ∧
    ((SysState.mk (ReasonFile.entries []) (some "")).zonesFile = some "") ∧
    (("" : String).data = [] ∨ ("" : String).data.getLast? = some '\n') ∧
    ((rust_lines "").countP
      (fun l => parse_domain_from_line l == some "a.com") = 0) ∧
    (((load_reason_log (add_domain "a.com" "r2" (SpawnOutcome.exited true)
        (add_domain "a.com" "r1" (SpawnOutcome.exited true)
          (SysState.mk (ReasonFile.entries []) (some ""))).state).state.reasonFile).filter
      (fun e => e.domain == "a.com")) = [{ domain := "a.com", reason := "r2" }] ∧
    ∃ zc, (add_domain "a.com" "r2" (SpawnOutcome.exited true)
        (add_domain "a.com" "r1" (SpawnOutcome.exited true)
          (SysState.mk (ReasonFile.entries []) (some ""))).state).state.zonesFile = some zc ∧
      (rust_lines zc).countP (fun l => parse_domain_from_line l == some "a.com") = 1) :=
  ⟨by decide, by decide, by decide, by decide, rfl, Or.inl rfl, rfl,
    C8_add_add_amended "a.com" "r1" "r2" (SpawnOutcome.exited true) (SpawnOutcome.exited true)
      (SysState.mk (ReasonFile.entries []) (some "")) ""
      (by decide) (by decide) (by decide) (by decide) rfl (Or.inl rfl) rfl⟩

lemma mem_stripCr (p : List Char) (c : Char) (hc : c ∈ stripCr p) : c ∈ p := by
  unfold stripCr at hc
  by_cases h : p.getLast? = some '\r'
  · rw [if_pos h] at hc
    exact List.Sublist.mem hc (List.dropLast_sublist p)
  · rwa [if_neg h] at hc

lemma mem_rust_lines_no_newline (content l : String) (hl : l ∈ rust_lines content) :
    '\n' ∉ l.data := by
  have hmain : ∀ p ∈ splitNl content.data, '\n' ∉ stripCr p := by
    intro p hp hmem
    exact mem_splitNl_no_newline content.data p hp (mem_stripCr p '\n' hmem)
  by_cases hc : (splitNl content.data).getLast? = some []
  · rw [rust_lines_eq_terminated content hc] at hl
    obtain ⟨p, hp, hlp⟩ := List.mem_map.mp hl
    rw [← hlp]
    exact hmain p (List.Sublist.mem hp (List.dropLast_sublist _))
  · obtain ⟨q', hq'⟩ : ∃ q', (splitNl content.data).getLast? = some q' := by
      cases hg : (splitNl content.data).getLast? with
      | none => exact absurd hg (splitNl_getLast_ne_none content.data)
      | some q' => exact ⟨q', rfl⟩
    have hq'ne : q' ≠ [] := fun h0 => hc (h0 ▸ hq')
    rw [rust_lines_eq_unterminated content q' hq'ne hq'] at hl
    rcases List.mem_append.mp hl with hl | hl
    · obtain ⟨p, hp, hlp⟩ := List.mem_map.mp hl
      rw [← hlp]
      exact hmain p (List.Sublist.mem hp (List.dropLast_sublist _))
    · have hl' : l = String.mk q' := by simpa using hl
      have h1 := List.getLast?_eq_getLast (splitNl content.data) (splitNl_ne_nil content.data)
      rw [hq'] at h1
      have h2 : q' = (splitNl content.data).getLast (splitNl_ne_nil content.data) :=
        (Option.some.injEq _ _).mp h1
      have hq'mem : q' ∈ splitNl content.data := by
        rw [h2]
        exact List.getLast_mem _
      rw [hl']
      intro hmem
      exact mem_splitNl_no_newline content.data q' hq'mem hmem

lemma splitNl_flatten_intersperse (L : List (List Char)) (h : ∀ p ∈ L, '\n' ∉ p)
    (hne : L ≠ []) :
    splitNl ((L.intersperse ['\n']).flatten) = L := by
  induction L with
  | nil => exact absurd rfl hne
  | cons x M ih =>
    cases M with
    | nil =>
      have hx : ([x].intersperse ['\n']).flatten = x := by simp
      rw [hx, splitNl_no_newline x (fun c hc heq => h x (by simp) (heq ▸ hc))]
    | cons y N =>
      have hfl : (((x :: y :: N).intersperse ['\n']).flatten) =
          x ++ '\n' :: (((y :: N).intersperse ['\n']).flatten) := rfl
      rw [hfl, splitNl_append_newline,
        splitNl_no_newline x (fun c hc heq => h x (by simp) (heq ▸ hc)),
        ih (fun p hp => h p (List.mem_cons_of_mem x hp)) (by simp)]
      rfl

lemma rust_lines_joinNl (L : List String) (hL : ∀ s ∈ L, '\n' ∉ s.data) :
    rust_lines (joinNl L) = reread_lines L := by
  cases L with
  | nil => rfl
  | cons x M =>
    have hdata : (joinNl (x :: M)).data =
        (((x :: M).map String.data).intersperse ['\n']).flatten := rfl
    have hmap : ∀ p ∈ (x :: M).map String.data, '\n' ∉ p := by
      intro p hp
      obtain ⟨s, hs, hsp⟩ := List.mem_map.mp hp
      rw [← hsp]
      exact hL s hs
    have hsplit : splitNl (joinNl (x :: M)).data = (x :: M).map String.data := by
      rw [hdata, splitNl_flatten_intersperse _ hmap (by simp)]
    have hxMne : (x :: M) ≠ ([] : List String) := by simp
    have hlx : (x :: M).getLast? = some ((x :: M).getLast hxMne) :=
      List.getLast?_eq_getLast _ hxMne
    have hmaplast : ((x :: M).map String.data).getLast? =
        some ((x :: M).getLast hxMne).data := by
      rw [List.getLast?_map, hlx]
      rfl
    have hdrop : ((x :: M).map String.data).dropLast.map (fun l => String.mk (stripCr l)) =
        (x :: M).dropLast.map (fun s => String.mk (stripCr s.data)) := by
      rw [← List.map_dropLast, List.map_map]
      rfl
    by_cases he : (x :: M).getLast hxMne = ""
    · have hterm : (splitNl (joinNl (x :: M)).data).getLast? = some [] := by
        rw [hsplit, hmaplast, he]
      rw [rust_lines_eq_terminated _ hterm, hsplit, hdrop]
      unfold reread_lines
      rw [if_pos (by rw [hlx, he]), List.append_nil]
    · have hne : ((x :: M).getLast hxMne).data ≠ [] := by
        intro h0
        exact he (string_data_eq_nil _ h0)
      rw [rust_lines_eq_unterminated _ _ hne (by rw [hsplit]; exact hmaplast), hsplit, hdrop]
      unfold reread_lines
      rw [if_neg ?_]
      · rw [hlx, string_mk_data]
        rfl
      · rw [hlx]
        intro h0
        exact he ((Option.some.injEq _ _).mp h0)

/-- C5 counterexample: removing "x.com" from a file holding one
declaration block followed by its separating blank line rewrites the
file to the empty string, losing the remaining (blank) line — so the
resulting lines are not exactly the lines that did not contain the
domain. -/
theorem C5_counterexample :
    (removeDeclaration "x.com" "zone \"x.com\" \x7bz\x7d;\n\n").2 = true ∧
    (rust_lines "zone \"x.com\" \x7bz\x7d;\n\n").filter
      (fun l => !(contains_sub l "x.com")) = [""] ∧
    rust_lines (removeDeclaration "x.com" "zone \"x.com\" \x7bz\x7d;\n\n").1 = [] := by
  refine ⟨?_, ?_, ?_⟩ <;> rfl

/-- C5 (amended): for every domain string d and zone-file contents,
the rewrite keeps exactly the lines not containing d as a literal
substring, in order, up to two artifacts of joining with a bare
newline: every non-final remaining line is newline-terminated in the
rewritten file and so loses one trailing carriage return on re-read,
while the final remaining line is left unterminated and is therefore
dropped when empty and kept verbatim (carriage return included)
otherwise; the returned flag is true exactly when some line contained
d, letting the caller distinguish not-found from removed, and when it
is false the file content is untouched. -/
theorem C5_removeDeclaration_amended (d content : String) :
    ((removeDeclaration d content).2 = true ↔
      ∃ l ∈ rust_lines content, contains_sub l d = true) ∧
    ((removeDeclaration d content).2 = false → (removeDeclaration d content).1 = content) ∧
    ((removeDeclaration d content).2 = true →
      rust_lines (removeDeclaration d content).1 =
        reread_lines ((rust_lines content).filter (fun l => !(contains_sub l d)))) := by
  by_cases hlt : ((rust_lines content).filter (fun l => !(contains_sub l d))).length <
      (rust_lines content).length
  · have hr : removeDeclaration d content =
        (joinNl ((rust_lines content).filter (fun l => !(contains_sub l d))), true) := by
      simp [removeDeclaration, hlt]
    obtain ⟨a, ha, hpa⟩ := List.length_filter_lt_length_iff_exists.mp hlt
    refine ⟨?_, ?_, ?_⟩
    · rw [hr]
      simp only [true_iff]
      exact ⟨a, ha, by simpa using hpa⟩
    · rw [hr]
      simp
    · intro _
      rw [hr]
      exact rust_lines_joinNl _ (fun s hs =>
        mem_rust_lines_no_newline content s (List.mem_of_mem_filter hs))
  · have hr : removeDeclaration d content = (content, false) := by
      simp [removeDeclaration, hlt]
    refine ⟨?_, ?_, ?_⟩
    · rw [hr]
      simp only [Bool.false_eq_true, false_iff]
      intro hcon
      obtain ⟨l, hl, hcl⟩ := hcon
      exact hlt (List.length_filter_lt_length_iff_exists.mpr ⟨l, hl, by simp [hcl]⟩)
    · rw [hr]
      intro _
      rfl
    · rw [hr]
      intro hcon
      exact absurd hcon (by simp)

/-- Witness for C5 (amended) at a concrete input: the flag reports the
removal and the rewritten lines match the amended description. -/
theorem C5_witness :
    ((removeDeclaration "x.com" "zone \"x.com\" \x7bz\x7d;\n\nzone \"y.com\" \x7bz\x7d;\n\n").2 = true →
      rust_lines (removeDeclaration "x.com" "zone \"x.com\" \x7bz\x7d;\n\nzone \"y.com\" \x7bz\x7d;\n\n").1 =
        reread_lines ((rust_lines "zone \"x.com\" \x7bz\x7d;\n\nzone \"y.com\" \x7bz\x7d;\n\n").filter
          (fun l => !(contains_sub l "x.com")))) ∧
    (removeDeclaration "x.com" "zone \"x.com\" \x7bz\x7d;\n\nzone \"y.com\" \x7bz\x7d;\n\n").2 = true :=
  ⟨(C5_removeDeclaration_amended "x.com"
      "zone \"x.com\" \x7bz\x7d;\n\nzone \"y.com\" \x7bz\x7d;\n\n").2.2,
    by rfl⟩
